import Mathlib

/-
Verification of the Wordle CSP solver core
(src/backend/wordle_solver/solver_lib.py and its use in src/backend/api.py).

Words are tuples of letter indices in the source; we model them as `List Nat`.
Python strings (the rendered guesses and the target word) are modelled as
lists of character code points, so `ord(c) - ord('a')` becomes `c - 97` and
`chr(c + ord('a'))` becomes `c + 97`.
-/

set_option maxHeartbeats 1000000

/-- Feedback marks: 'G' = correct position, 'Y' = wrong position, 'B' = not in word. -/
inductive Mark where
  | G
  | Y
  | B
  deriving DecidableEq, Repr

/-- A Python `collections.Counter` value table.  Values are `Int` because
`Counter` supports decrementing without a floor.  Key membership
(`x in counter`) is handled separately: in `get_feedback` the counter is
`Counter(target)` and only existing keys are ever decremented, so its key
set stays exactly the set of letters of `target` throughout. -/
abbrev Cnt := Nat → Int

/-- Decrement the counter entry of `c` (Python `counter[c] -= 1`). -/
def decr (cnt : Cnt) (c : Nat) : Cnt := fun x => if x = c then cnt x - 1 else cnt x

/-- First pass of `get_feedback` (solver_lib.py lines 34-39): walk
`zip(guess, target)`, mark 'G' on exact matches and decrement the counter,
mark 'B' otherwise.  Returns the feedback list and the updated counter. -/
def pass1 : List (Nat × Nat) → Cnt → List Mark × Cnt
  | [], cnt => ([], cnt)
  | p :: rest, cnt =>
    if p.1 = p.2 then
      let r := pass1 rest (decr cnt p.1)
      (Mark.G :: r.1, r.2)
    else
      let r := pass1 rest cnt
      (Mark.B :: r.1, r.2)

/-- Second pass of `get_feedback` (solver_lib.py lines 41-44): walk
`enumerate(zip(guess, target))` next to the first-pass feedback; a 'B'
position whose guess letter is a key of the counter (equivalently, a letter
of `target`) with remaining count > 0 becomes 'Y' and consumes one count. -/
def pass2 (target : List Nat) : List Mark → List (Nat × Nat) → Cnt → List Mark
  | [], _, _ => []
  | m :: ms, [], _ => m :: ms
  | m :: ms, p :: rest, cnt =>
    if m = Mark.B ∧ p.1 ∈ target ∧ 0 < cnt p.1 then
      Mark.Y :: pass2 target ms rest (decr cnt p.1)
    else
      m :: pass2 target ms rest cnt

/-- `get_feedback` (solver_lib.py lines 18-45): two-pass Wordle feedback with
the counter initialised from the multiset of target letters. -/
def get_feedback (guess target : List Nat) : List Mark :=
  let p1 := pass1 (guess.zip target) (fun c => (target.count c : Int))
  pass2 target p1.1 (guess.zip target) p1.2

/-- The gray letters of a round: `[guess[pos] for pos in range(5) if feedback[pos] == 'B']`
(solver_lib.py line 175). -/
def gray_chars (guess : List Nat) (feedback : List Mark) : List Nat :=
  (List.range 5).filterMap fun pos =>
    if feedback.getD pos Mark.B = Mark.B then some (guess.getD pos 0) else none

/-- The letters of the guess confirmed by a 'G' or 'Y' mark:
`[guess[p] for p in range(5) if feedback[p] in ('G', 'Y')]` (solver_lib.py line 177). -/
def gy_chars (guess : List Nat) (feedback : List Mark) : List Nat :=
  (List.range 5).filterMap fun pos =>
    if feedback.getD pos Mark.B = Mark.G ∨ feedback.getD pos Mark.B = Mark.Y then
      some (guess.getD pos 0)
    else none

/-- The per-word consistency test of `filter_valid_words` (solver_lib.py lines
158-181): the three early-exit loops of the source become a conjunction. -/
def valid_word (word guess : List Nat) (feedback : List Mark) : Bool :=
  ((List.range 5).all fun pos =>
      !(feedback.getD pos Mark.B == Mark.G && !(word.getD pos 0 == guess.getD pos 0)))
  &&
  ((List.range 5).all fun pos =>
      !(feedback.getD pos Mark.B == Mark.Y &&
        (word.getD pos 0 == guess.getD pos 0 || !(word.contains (guess.getD pos 0)))))
  &&
  ((gray_chars guess feedback).all fun c =>
      !(word.contains c && !((gy_chars guess feedback).contains c)))

/-- `filter_valid_words` (solver_lib.py lines 146-183): keep the words
consistent with the observed feedback, preserving order. -/
def filter_valid_words (words_data : List (List Nat)) (guess : List Nat)
    (feedback : List Mark) : List (List Nat) :=
  words_data.filter fun word => valid_word word guess feedback

/-- Positions of `guess` that received a gray mark for letter `c`:
`gray_positions[char]` built by `update_model` (solver_lib.py lines 57-71). -/
def gray_pos_list (guess : List Nat) (feedback : List Mark) (c : Nat) : List Nat :=
  (List.range 5).filter fun pos =>
    feedback.getD pos Mark.B == Mark.B && guess.getD pos 0 == c

/-- `letter_counts[char]` built by `update_model` (solver_lib.py lines 57-68):
the number of 'G'/'Y' marks carrying letter `c` in this round. -/
def letter_req (guess : List Nat) (feedback : List Mark) (c : Nat) : Nat :=
  ((List.range 5).filter fun pos =>
    (feedback.getD pos Mark.B == Mark.G || feedback.getD pos Mark.B == Mark.Y) &&
      guess.getD pos 0 == c).length

/-- Satisfiability, at a fixed word `w`, of the constraints `update_model`
(solver_lib.py lines 48-83) posts for one `(guess, feedback)` round:
'G' forces `w[pos] == guess[pos]`, 'Y' forces `w[pos] != guess[pos]`,
gray positions force `w[pos] != guess[pos]`, and for each confirmed letter
the `sum(occurs) >= count` constraint.  The auxiliary `occurs` Booleans at
gray positions are unconstrained, so that constraint is satisfiable exactly
when the matches outside gray positions plus the number of free gray
Booleans reach the required count. -/
def model_allows (guess : List Nat) (feedback : List Mark) (w : List Nat) : Bool :=
  ((List.range 5).all fun pos =>
    match feedback.getD pos Mark.B with
    | Mark.G => w.getD pos 0 == guess.getD pos 0
    | Mark.Y => !(w.getD pos 0 == guess.getD pos 0)
    | Mark.B => true)
  &&
  ((List.range 5).all fun pos =>
    if feedback.getD pos Mark.B = Mark.B then !(w.getD pos 0 == guess.getD pos 0)
    else true)
  &&
  ((List.range 5).all fun i =>
    if feedback.getD i Mark.B = Mark.G ∨ feedback.getD i Mark.B = Mark.Y then
      decide (letter_req guess feedback (guess.getD i 0) ≤
        ((List.range 5).filter fun p =>
          !((gray_pos_list guess feedback (guess.getD i 0)).contains p) &&
            w.getD p 0 == guess.getD i 0).length
        + (gray_pos_list guess feedback (guess.getD i 0)).length)
    else true)

/-- Positional letter frequencies (solver_lib.py lines 202-206 and 214-217).
The raw count of words with letter `char` at position `pos`, normalised by
`total_pos = sum(positional_freq[pos].values())`, which equals the number of
words since every word contributes one increment per position.  Modelled with
exact rationals in place of Python floats. -/
def positional_freq (valid_words : List (List Nat)) : Nat → Nat → ℚ := fun pos char =>
  ((valid_words.map fun w => w.getD pos 0).count char : ℚ) / (valid_words.length : ℚ)

/-- Global letter frequencies (solver_lib.py lines 208-212): occurrences of
`char` across all words, divided by `total_words = len(valid_words)`. -/
def letter_frequency (valid_words : List (List Nat)) : Nat → ℚ := fun char =>
  (valid_words.flatten.count char : ℚ) / (valid_words.length : ℚ)

/-- The observable content of the shared `cp_model.CpModel` instance of
`solve_wordle`: the tuple lists of every `AddAllowedAssignments` call (line
243, one per round, holding that round's `valid_words`), the
`(guess, feedback)` pairs of every `update_model` call (line 275), and the
frequency tables of every `update_heuristic` call (line 246).  The reified
Booleans added by `update_heuristic` never constrain the position variables,
so they are not recorded. -/
structure CpModelState where
  allowed : List (List (List Nat))
  history : List (List Nat × List Mark)
  heuristics : List ((Nat → Nat → ℚ) × (Nat → ℚ))

/-- The `response` dict of `solve_wordle` (solver_lib.py lines 231-235).
Guess strings are modelled as lists of character code points. -/
structure Response where
  guesses : List (List Nat)
  feedback : List (List Mark)
  nb_possible_words : List Nat
  deriving DecidableEq, Repr

/-- One round's model updates made before `solver.Solve` runs:
`AddAllowedAssignments(position_vars, valid_words)` (line 243) and
`update_heuristic(model, position_vars, positional_freq, letter_frequency)`
(line 246). -/
def round_model (m : CpModelState) (vw : List (List Nat))
    (pf : Nat → Nat → ℚ) (lf : Nat → ℚ) : CpModelState :=
  { m with allowed := m.allowed ++ [vw], heuristics := m.heuristics ++ [(pf, lf)] }

/-- The `for attempt in range(max_attempts)` loop of `solve_wordle`
(solver_lib.py lines 237-283).  The CP-SAT solver is abstracted as `sel`:
`sel m = some g` models `solver.Solve` returning OPTIMAL/FEASIBLE with the
position variables valued `g`; `sel m = none` models any other status.
`aliased`/`caller` model Python object aliasing: `caller` is the list object
the caller passed in, and `aliased` records whether the local `valid_words`
still refers to it (it does until the first `valid_words = filter_valid_words(...)`
rebinding, so the round-1 `valid_words.remove(guess)` at line 257 mutates the
caller's list).  Returns the final `response`, model, and caller's list. -/
def solve_loop (sel : CpModelState → Option (List Nat)) (target_as_int : List Nat)
    (pf : Nat → Nat → ℚ) (lf : Nat → ℚ) :
    Nat → List (List Nat) → CpModelState → Bool → List (List Nat) → Response →
    Response × CpModelState × List (List Nat)
  | 0, _, m, _, caller, resp => (resp, m, caller)
  | n + 1, vw, m, aliased, caller, resp =>
    let m1 := round_model m vw pf lf
    match sel m1 with
    | some g =>
      let vw2 := vw.erase g
      let caller2 := if aliased then vw2 else caller
      let fb := get_feedback g target_as_int
      let resp2 : Response :=
        { guesses := resp.guesses ++ [g.map fun c => c + 97]
          feedback := resp.feedback ++ [fb]
          nb_possible_words := resp.nb_possible_words ++ [vw2.length] }
      if fb = List.replicate 5 Mark.G then (resp2, m1, caller2)
      else
        solve_loop sel target_as_int pf lf n (filter_valid_words vw2 g fb)
          { m1 with history := m1.history ++ [(g, fb)] } false caller2 resp2
    | none => (resp, m1, caller)

/-- `solve_wordle` (solver_lib.py lines 186-283): convert the target string to
letter indices (line 199), compute the frequency tables once from the input
word list (lines 201-217), initialise the model and empty response, and run
the loop.  The caller's word-list object is initially aliased by the local
`valid_words`. -/
def solve_wordle (sel : CpModelState → Option (List Nat)) (valid_words : List (List Nat))
    (target_word : List Nat) (max_attempts : Nat) :
    Response × CpModelState × List (List Nat) :=
  solve_loop sel (target_word.map fun c => c - 97)
    (positional_freq valid_words) (letter_frequency valid_words)
    max_attempts valid_words ⟨[], [], []⟩ true valid_words ⟨[], [], []⟩

/-- A concrete, executable CP solution oracle used for witnesses and
counterexamples: return the first word of the current round's allowed list
that satisfies every recorded constraint, mirroring what CP-SAT guarantees
about a FEASIBLE solution. -/
def greedy_sel (m : CpModelState) : Option (List Nat) :=
  (m.allowed.getLastD []).find? fun g =>
    g.length == 5 && m.allowed.all (fun ws => ws.contains g) &&
      m.history.all fun e => model_allows e.1 e.2 g

/-- The word "crane" as letter indices. -/
def crane_w : List Nat := [2, 17, 0, 13, 4]

/-- The word "slate" as letter indices. -/
def slate_w : List Nat := [18, 11, 0, 19, 4]

/-- The word "irate" as letter indices. -/
def irate_w : List Nat := [8, 17, 0, 19, 4]

/-- The word "trace" as letter indices. -/
def trace_w : List Nat := [19, 17, 0, 2, 4]

/-- A small demonstration dictionary. -/
def demo_words : List (List Nat) := [crane_w, slate_w, irate_w, trace_w]

/-- The target string "trace" as character code points. -/
def trace_str : List Nat := [116, 114, 97, 99, 101]

theorem pass1_fst (l : List (Nat × Nat)) (cnt : Cnt) :
    (pass1 l cnt).1 = l.map fun p => if p.1 = p.2 then Mark.G else Mark.B := by
  induction l generalizing cnt with
  | nil => simp [pass1]
  | cons p rest ih => by_cases h : p.1 = p.2 <;> simp [pass1, h, ih]

theorem pass1_snd (l : List (Nat × Nat)) (cnt : Cnt) (c : Nat) :
    (pass1 l cnt).2 c = cnt c - (l.count (c, c) : Int) := by
  induction l generalizing cnt with
  | nil => simp [pass1]
  | cons p rest ih =>
    obtain ⟨a, b⟩ := p
    by_cases h : a = b
    · subst h
      have hstep : (pass1 ((a, a) :: rest) cnt).2 = (pass1 rest (decr cnt a)).2 := by
        simp [pass1]
      rw [hstep, ih, List.count_cons]
      by_cases hc : c = a
      · subst hc
        simp only [decr, if_pos rfl]
        simp
        omega
      · have hne : ¬((a, a) = (c, c)) := by
          intro hcontra
          exact hc (congrArg Prod.fst hcontra).symm
        simp only [decr, if_neg hc]
        simp [hne]
    · have hstep : (pass1 ((a, b) :: rest) cnt).2 = (pass1 rest cnt).2 := by
        simp only [pass1]
        rw [if_neg (by simpa using h)]
      have hne : ¬((a, b) = (c, c)) := by
        intro hcontra
        injection hcontra with h1 h2
        exact h (h1.trans h2.symm)
      rw [hstep, ih, List.count_cons]
      simp [hne]

theorem pass2_cons (t : List Nat) (m : Mark) (ms : List Mark) (p : Nat × Nat)
    (rest : List (Nat × Nat)) (cnt : Cnt) :
    pass2 t (m :: ms) (p :: rest) cnt =
      if m = Mark.B ∧ p.1 ∈ t ∧ 0 < cnt p.1 then Mark.Y :: pass2 t ms rest (decr cnt p.1)
      else m :: pass2 t ms rest cnt := rfl

theorem pass2_cons_mk (t : List Nat) (m : Mark) (ms : List Mark) (a b : Nat)
    (rest : List (Nat × Nat)) (cnt : Cnt) :
    pass2 t (m :: ms) ((a, b) :: rest) cnt =
      if m = Mark.B ∧ a ∈ t ∧ 0 < cnt a then Mark.Y :: pass2 t ms rest (decr cnt a)
      else m :: pass2 t ms rest cnt := rfl

theorem pass2_length (t : List Nat) (ms : List Mark) :
    ∀ (l : List (Nat × Nat)) (cnt : Cnt), (pass2 t ms l cnt).length = ms.length := by
  induction ms with
  | nil => intro l cnt; cases l <;> simp [pass2]
  | cons m ms ih =>
    intro l cnt
    cases l with
    | nil => simp [pass2]
    | cons p rest =>
      by_cases h : m = Mark.B ∧ p.1 ∈ t ∧ 0 < cnt p.1 <;> simp [pass2, h, ih]

theorem pass2_getElem?_G (t : List Nat) (ms : List Mark) :
    ∀ (l : List (Nat × Nat)) (cnt : Cnt) (i : Nat),
      (pass2 t ms l cnt)[i]? = some Mark.G ↔ ms[i]? = some Mark.G := by
  induction ms with
  | nil => intro l cnt i; cases l <;> simp [pass2]
  | cons m ms ih =>
    intro l cnt i
    cases l with
    | nil => simp [pass2]
    | cons p rest =>
      by_cases h : m = Mark.B ∧ p.1 ∈ t ∧ 0 < cnt p.1
      · cases i with
        | zero => simp [pass2, h, h.1]
        | succ j => simpa [pass2, h] using ih rest (decr cnt p.1) j
      · cases i with
        | zero => simp [pass2, h]
        | succ j => simpa [pass2, h] using ih rest cnt j

theorem pass2_getElem?_Y (t : List Nat) (ms : List Mark) :
    ∀ (l : List (Nat × Nat)) (cnt : Cnt) (i : Nat),
      (pass2 t ms l cnt)[i]? = some Mark.Y →
      ms[i]? = some Mark.Y ∨
        (ms[i]? = some Mark.B ∧ ∀ q : Nat × Nat, l[i]? = some q → q.1 ∈ t) := by
  induction ms with
  | nil => intro l cnt i hY; cases l <;> simp [pass2] at hY
  | cons m ms ih =>
    intro l cnt i hY
    cases l with
    | nil =>
      simp only [pass2] at hY
      exact Or.inl hY
    | cons p rest =>
      by_cases h : m = Mark.B ∧ p.1 ∈ t ∧ 0 < cnt p.1
      · cases i with
        | zero =>
          refine Or.inr ⟨by simp [h.1], ?_⟩
          intro q hq
          simp only [List.getElem?_cons_zero, Option.some.injEq] at hq
          rw [← hq]
          exact h.2.1
        | succ j =>
          simp only [pass2, if_pos h, List.getElem?_cons_succ] at hY
          simpa using ih rest (decr cnt p.1) j hY
      · cases i with
        | zero =>
          simp only [pass2, if_neg h, List.getElem?_cons_zero, Option.some.injEq] at hY
          exact Or.inl (by simp [hY])
        | succ j =>
          simp only [pass2, if_neg h, List.getElem?_cons_succ] at hY
          simpa using ih rest cnt j hY

theorem pass2_replicate (t : List Nat) (n : Nat) :
    ∀ (l : List (Nat × Nat)) (cnt : Cnt),
      pass2 t (List.replicate n Mark.G) l cnt = List.replicate n Mark.G := by
  induction n with
  | zero => intro l cnt; cases l <;> simp [pass2]
  | succ k ih =>
    intro l cnt
    cases l with
    | nil => simp [pass2, List.replicate_succ]
    | cons p rest => simp [List.replicate_succ, pass2, ih]

theorem pass2_count_G (t : List Nat) (ms : List Mark) :
    ∀ (l : List (Nat × Nat)) (cnt : Cnt) (c : Nat),
      ((pass2 t ms l cnt).zip (l.map Prod.fst)).count (Mark.G, c) =
        (ms.zip (l.map Prod.fst)).count (Mark.G, c) := by
  induction ms with
  | nil => intro l cnt c; cases l <;> simp [pass2]
  | cons m ms ih =>
    intro l cnt c
    cases l with
    | nil => simp [pass2]
    | cons p rest =>
      by_cases h : m = Mark.B ∧ p.1 ∈ t ∧ 0 < cnt p.1
      · simp [pass2, h, h.1, List.count_cons, ih]
      · simp [pass2, h, List.count_cons, ih]

theorem pass2_count_Y (t : List Nat) (ms : List Mark) :
    ∀ (l : List (Nat × Nat)) (cnt : Cnt) (c : Nat),
      ((pass2 t ms l cnt).zip (l.map Prod.fst)).count (Mark.Y, c) ≤
        (ms.zip (l.map Prod.fst)).count (Mark.Y, c) + (cnt c).toNat := by
  induction ms with
  | nil => intro l cnt c; cases l <;> simp [pass2]
  | cons m ms ih =>
    intro l cnt c
    cases l with
    | nil => simp [pass2]
    | cons p rest =>
      obtain ⟨a, b⟩ := p
      by_cases h : m = Mark.B ∧ a ∈ t ∧ 0 < cnt a
      · obtain ⟨hm, hmt, hcnta⟩ := h
        subst hm
        rw [pass2_cons_mk, if_pos ⟨rfl, hmt, hcnta⟩]
        by_cases hc : a = c
        · subst hc
          have hrec := ih rest (decr cnt a) a
          have hdecr : decr cnt a a = cnt a - 1 := by simp [decr]
          rw [hdecr] at hrec
          simp only [List.map_cons, List.zip_cons_cons]
          rw [List.count_cons_self,
            List.count_cons_of_ne (by simp : ((Mark.Y, a) : Mark × Nat) ≠ (Mark.B, a))]
          omega
        · have hrec := ih rest (decr cnt a) c
          have hne : ¬(c = a) := fun hx => hc hx.symm
          have hdecr : decr cnt a c = cnt c := by simp [decr, hne]
          rw [hdecr] at hrec
          simp only [List.map_cons, List.zip_cons_cons]
          rw [List.count_cons_of_ne (by simp [hne] : ((Mark.Y, c) : Mark × Nat) ≠ (Mark.Y, a)),
            List.count_cons_of_ne (by simp : ((Mark.Y, c) : Mark × Nat) ≠ (Mark.B, a))]
          omega
      · have hrec := ih rest cnt c
        rw [pass2_cons_mk, if_neg h]
        simp only [List.map_cons, List.zip_cons_cons, List.count_cons]
        omega

theorem pass2_B_mem (t : List Nat) (ms : List Mark) :
    ∀ (l : List (Nat × Nat)) (cnt : Cnt) (c : Nat),
      (Mark.B, c) ∈ (pass2 t ms l cnt).zip (l.map Prod.fst) → c ∈ t → 0 < cnt c →
      (Mark.Y, c) ∈ (pass2 t ms l cnt).zip (l.map Prod.fst) := by
  induction ms with
  | nil => intro l cnt c hmem; cases l <;> simp [pass2] at hmem
  | cons m ms ih =>
    intro l cnt c hmem hct hcnt
    cases l with
    | nil => simp at hmem
    | cons p rest =>
      obtain ⟨a, b⟩ := p
      by_cases h : m = Mark.B ∧ a ∈ t ∧ 0 < cnt a
      · by_cases hc : a = c
        · subst hc
          simp [pass2, h, h.1]
        · simp only [pass2, if_pos h, List.map_cons, List.zip_cons_cons,
            List.mem_cons] at hmem ⊢
          rcases hmem with h1 | h1
          · exact absurd (congrArg Prod.fst h1) (by simp)
          · have hne : ¬(c = a) := fun hx => hc hx.symm
            have hdecr : 0 < decr cnt a c := by simpa [decr, hne] using hcnt
            exact Or.inr (ih rest (decr cnt a) c h1 hct hdecr)
      · simp only [pass2, if_neg h, List.map_cons, List.zip_cons_cons,
          List.mem_cons] at hmem ⊢
        rcases hmem with h1 | h1
        · exfalso
          apply h
          have hm : Mark.B = m := congrArg Prod.fst h1
          have hp : c = a := congrArg Prod.snd h1
          exact ⟨hm.symm, hp ▸ hct, hp ▸ hcnt⟩
        · exact Or.inr (ih rest cnt c h1 hct hcnt)

theorem get_feedback_def (g t : List Nat) :
    get_feedback g t =
      pass2 t (pass1 (g.zip t) fun c => (t.count c : Int)).1 (g.zip t)
        (pass1 (g.zip t) fun c => (t.count c : Int)).2 := rfl

theorem length_get_feedback (g t : List Nat) (hg : g.length = 5) (ht : t.length = 5) :
    (get_feedback g t).length = 5 := by
  rw [get_feedback_def, pass2_length, pass1_fst, List.length_map, List.length_zip, hg, ht]
  simp

theorem zip_getElem?_eq_some {α β : Type} (l₁ : List α) (l₂ : List β) (z : α × β) (i : Nat) :
    (l₁.zip l₂)[i]? = some z ↔ l₁[i]? = some z.1 ∧ l₂[i]? = some z.2 := by
  simpa [List.get?_eq_getElem?] using List.get?_zip_eq_some l₁ l₂ z i

theorem getD_of_getElem? {α : Type} {l : List α} {i : Nat} {x : α} (d : α)
    (h : l[i]? = some x) : l.getD i d = x := by
  rw [List.getD_eq_getD_get?, List.get?_eq_getElem?, h]
  rfl

theorem getElem?_eq_some_getD {α : Type} (l : List α) (i : Nat) (d : α)
    (h : i < l.length) : l[i]? = some (l.getD i d) := by
  rw [List.getD_eq_getD_get?, List.get?_eq_getElem?, List.getElem?_eq_getElem h]
  rfl

theorem get_feedback_G_iff (g t : List Nat) (i : Nat) (q : Nat × Nat)
    (hq : (g.zip t)[i]? = some q) :
    ((get_feedback g t)[i]? = some Mark.G ↔ q.1 = q.2) := by
  rw [get_feedback_def, pass2_getElem?_G, pass1_fst, List.getElem?_map, hq]
  by_cases h : q.1 = q.2 <;> simp [h]

theorem get_feedback_Y_imp (g t : List Nat) (i : Nat) (q : Nat × Nat)
    (hq : (g.zip t)[i]? = some q)
    (hY : (get_feedback g t)[i]? = some Mark.Y) : q.1 ≠ q.2 ∧ q.1 ∈ t := by
  rw [get_feedback_def] at hY
  rcases pass2_getElem?_Y t _ _ _ i hY with h1 | ⟨h1, h2⟩
  · rw [pass1_fst, List.getElem?_map, hq] at h1
    by_cases hp : q.1 = q.2 <;> simp [hp] at h1
  · rw [pass1_fst, List.getElem?_map, hq] at h1
    refine ⟨?_, h2 q hq⟩
    by_cases hp : q.1 = q.2
    · simp [hp] at h1
    · exact hp

theorem get_feedback_B_exists (g t : List Nat) (hg : g.length = 5) (ht : t.length = 5)
    (i : Nat) (q : Nat × Nat) (hq : (g.zip t)[i]? = some q)
    (hB : (get_feedback g t)[i]? = some Mark.B) (hmem : q.1 ∈ t) :
    ∃ (j : Nat) (r : Nat × Nat), (g.zip t)[j]? = some r ∧ r.1 = q.1 ∧
      ((get_feedback g t)[j]? = some Mark.G ∨ (get_feedback g t)[j]? = some Mark.Y) := by
  have hmapfst : (g.zip t).map Prod.fst = g := List.map_fst_zip g t (by rw [hg, ht])
  by_cases hpos : 0 < (pass1 (g.zip t) fun c => (t.count c : Int)).2 q.1
  · -- the counter still had budget for this letter, so pass2 must have spent it
    -- on some 'Y' position carrying the same letter
    have hgq : g[i]? = some q.1 := ((zip_getElem?_eq_some g t q i).mp hq).1
    have hzip : ((get_feedback g t).zip ((g.zip t).map Prod.fst))[i]? = some (Mark.B, q.1) := by
      rw [hmapfst]
      exact (zip_getElem?_eq_some _ g (Mark.B, q.1) i).mpr ⟨hB, hgq⟩
    have hBm : (Mark.B, q.1) ∈ (get_feedback g t).zip ((g.zip t).map Prod.fst) :=
      List.getElem?_mem hzip
    rw [get_feedback_def] at hBm
    have hYm := pass2_B_mem t _ _ _ q.1 hBm hmem hpos
    rw [← get_feedback_def, hmapfst] at hYm
    obtain ⟨j, hj⟩ := List.getElem?_of_mem hYm
    have hj' := (zip_getElem?_eq_some _ _ _ j).mp hj
    have hjlen : j < g.length := by
      rcases List.getElem?_eq_some.mp hj'.2 with ⟨hlt, _⟩
      exact hlt
    have hjz : j < (g.zip t).length := by
      rw [List.length_zip, hg, ht]
      rw [hg] at hjlen
      simpa using hjlen
    have hr : (g.zip t)[j]? = some (g.zip t)[j] := List.getElem?_eq_getElem hjz
    have hYj : (get_feedback g t)[j]? = some Mark.Y := hj'.1
    refine ⟨j, (g.zip t)[j], hr, ?_, Or.inr hYj⟩
    have hfst : g[j]? = some ((g.zip t)[j]).1 := ((zip_getElem?_eq_some g t _ j).mp hr).1
    have := hj'.2
    rw [hfst] at this
    injection this
  · -- the counter for this letter was exhausted by first-pass matches
    have hsnd := pass1_snd (g.zip t) (fun c => (t.count c : Int)) q.1
    have htc : 0 < t.count q.1 := List.count_pos_iff.mpr hmem
    have hzc : 0 < (g.zip t).count (q.1, q.1) := by omega
    have hmemz : (q.1, q.1) ∈ g.zip t := List.count_pos_iff.mp hzc
    obtain ⟨j, hj⟩ := List.getElem?_of_mem hmemz
    refine ⟨j, (q.1, q.1), hj, rfl, Or.inl ?_⟩
    rw [get_feedback_def, pass2_getElem?_G, pass1_fst, List.getElem?_map, hj]
    simp

theorem valid_word_target (g t : List Nat) (hg : g.length = 5) (ht : t.length = 5) :
    valid_word t g (get_feedback g t) = true := by
  have hlen : (get_feedback g t).length = 5 := length_get_feedback g t hg ht
  rw [valid_word, Bool.and_eq_true, Bool.and_eq_true]
  refine ⟨⟨?_, ?_⟩, ?_⟩
  · rw [List.all_eq_true]
    intro pos hpos
    rw [List.mem_range] at hpos
    have hzl : pos < (g.zip t).length := by
      rw [List.length_zip, hg, ht]
      simpa using hpos
    have hq : (g.zip t)[pos]? = some (g.zip t)[pos] := List.getElem?_eq_getElem hzl
    have hgq : g[pos]? = some ((g.zip t)[pos]).1 := ((zip_getElem?_eq_some g t _ pos).mp hq).1
    have htq : t[pos]? = some ((g.zip t)[pos]).2 := ((zip_getElem?_eq_some g t _ pos).mp hq).2
    have hgget : g.getD pos 0 = ((g.zip t)[pos]).1 := getD_of_getElem? 0 hgq
    have htget : t.getD pos 0 = ((g.zip t)[pos]).2 := getD_of_getElem? 0 htq
    have hfb : (get_feedback g t)[pos]? = some ((get_feedback g t).getD pos Mark.B) :=
      getElem?_eq_some_getD _ pos Mark.B (by rw [hlen]; exact hpos)
    cases hmark : (get_feedback g t).getD pos Mark.B with
    | G =>
      rw [hmark] at hfb
      have hqq := (get_feedback_G_iff g t pos _ hq).mp hfb
      rw [htget, hgget, hqq]
      simp
    | Y => simp
    | B => simp
  · rw [List.all_eq_true]
    intro pos hpos
    rw [List.mem_range] at hpos
    have hzl : pos < (g.zip t).length := by
      rw [List.length_zip, hg, ht]
      simpa using hpos
    have hq : (g.zip t)[pos]? = some (g.zip t)[pos] := List.getElem?_eq_getElem hzl
    have hgq : g[pos]? = some ((g.zip t)[pos]).1 := ((zip_getElem?_eq_some g t _ pos).mp hq).1
    have htq : t[pos]? = some ((g.zip t)[pos]).2 := ((zip_getElem?_eq_some g t _ pos).mp hq).2
    have hgget : g.getD pos 0 = ((g.zip t)[pos]).1 := getD_of_getElem? 0 hgq
    have htget : t.getD pos 0 = ((g.zip t)[pos]).2 := getD_of_getElem? 0 htq
    have hfb : (get_feedback g t)[pos]? = some ((get_feedback g t).getD pos Mark.B) :=
      getElem?_eq_some_getD _ pos Mark.B (by rw [hlen]; exact hpos)
    cases hmark : (get_feedback g t).getD pos Mark.B with
    | Y =>
      rw [hmark] at hfb
      obtain ⟨hne, hmem⟩ := get_feedback_Y_imp g t pos _ hq hfb
      rw [htget, hgget]
      have h1 : ((((g.zip t)[pos]).2 : Nat) == ((g.zip t)[pos]).1) = false :=
        beq_eq_false_iff_ne.mpr (Ne.symm hne)
      have h2 : t.contains ((g.zip t)[pos]).1 = true := List.elem_iff.mpr hmem
      rw [h1, h2]
      simp
    | G => simp
    | B => simp
  · rw [List.all_eq_true]
    intro c hcmem
    rw [gray_chars, List.mem_filterMap] at hcmem
    obtain ⟨pos, hposmem, hposeq⟩ := hcmem
    rw [List.mem_range] at hposmem
    by_cases hB : (get_feedback g t).getD pos Mark.B = Mark.B
    case neg =>
      rw [if_neg hB] at hposeq
      exact absurd hposeq (by simp)
    rw [if_pos hB] at hposeq
    have hc : g.getD pos 0 = c := by injection hposeq
    by_cases hct : c ∈ t
    · have hzl : pos < (g.zip t).length := by
        rw [List.length_zip, hg, ht]
        simpa using hposmem
      have hq : (g.zip t)[pos]? = some (g.zip t)[pos] := List.getElem?_eq_getElem hzl
      have hgq : g[pos]? = some ((g.zip t)[pos]).1 := ((zip_getElem?_eq_some g t _ pos).mp hq).1
      have hq1 : ((g.zip t)[pos]).1 = c := by
        rw [← getD_of_getElem? 0 hgq]
        exact hc
      have hfbB : (get_feedback g t)[pos]? = some Mark.B := by
        have hfb := getElem?_eq_some_getD (get_feedback g t) pos Mark.B
          (by rw [hlen]; exact hposmem)
        rw [hB] at hfb
        exact hfb
      obtain ⟨j, r, hj, hr1, hGY⟩ :=
        get_feedback_B_exists g t hg ht pos _ hq hfbB (by rw [hq1]; exact hct)
      have hjg : g[j]? = some r.1 := ((zip_getElem?_eq_some g t r j).mp hj).1
      have hj5 : j < 5 := by
        rcases List.getElem?_eq_some.mp hj with ⟨hlt, _⟩
        rw [List.length_zip, hg, ht] at hlt
        simpa using hlt
      have hfbj : (get_feedback g t).getD j Mark.B = Mark.G ∨
          (get_feedback g t).getD j Mark.B = Mark.Y := by
        rcases hGY with h | h
        · exact Or.inl (getD_of_getElem? Mark.B h)
        · exact Or.inr (getD_of_getElem? Mark.B h)
      have hmemgy : c ∈ gy_chars g (get_feedback g t) := by
        rw [gy_chars, List.mem_filterMap]
        refine ⟨j, List.mem_range.mpr hj5, ?_⟩
        rw [if_pos hfbj, getD_of_getElem? 0 hjg, hr1, hq1]
      have h1 : t.contains c = true := List.elem_iff.mpr hct
      have h2 : (gy_chars g (get_feedback g t)).contains c = true := List.elem_iff.mpr hmemgy
      rw [h1, h2]
      simp
    · have h1 : t.contains c = false := by
        rw [← Bool.not_eq_true]
        intro hcontra
        exact hct (List.elem_iff.mp hcontra)
      rw [h1]
      simp

/-- C1: soundness of filtering.  For every candidate list `C`, 5-letter guess
`g` and 5-letter target `t` with `t ∈ C`, if `f = get_feedback g t` then `t`
remains in `filter_valid_words C g f`: the true target is never eliminated by
a filter derived from its own feedback, including when `g` contains duplicate
letters marked Absent. -/
theorem filter_never_eliminates_target (C : List (List Nat)) (g t : List Nat)
    (f : List Mark) (hg : g.length = 5) (ht : t.length = 5) (hC : t ∈ C)
    (hf : f = get_feedback g t) :
    t ∈ filter_valid_words C g f := by
  subst hf
  rw [filter_valid_words, List.mem_filter]
  exact ⟨hC, valid_word_target g t hg ht⟩

/-- Witness for C1 at a concrete instance: guess "crane", target "trace",
candidate set the demonstration dictionary. -/
theorem filter_never_eliminates_target_witness :
    trace_w ∈ filter_valid_words demo_words crane_w (get_feedback crane_w trace_w) :=
  filter_never_eliminates_target demo_words crane_w trace_w _
    (by decide) (by decide) (by decide) rfl

/-- C5: `get_feedback` implements the two-pass algorithm; in particular, on
the documented example, `get_feedback (11,4,0,21,4) (15,11,0,2,4)` (guess
"leave" against target "place") yields Present, Absent, Correct, Absent,
Correct — the duplicate 'e' of the guess is marked Absent because the
target's single 'e' is already consumed by the Correct mark at position 4. -/
theorem get_feedback_doc_example :
    get_feedback [11, 4, 0, 21, 4] [15, 11, 0, 2, 4] =
      [Mark.Y, Mark.B, Mark.G, Mark.B, Mark.G] := by decide

theorem zip_self (g : List Nat) : g.zip g = g.map fun c => (c, c) := by
  induction g with
  | nil => rfl
  | cons a g ih => rw [List.zip_cons_cons, List.map_cons, ih]

/-- C10: for 5-letter words, the feedback is all-Correct exactly when the
guess equals the target; `solve_wordle` uses `feedback == ['G'] * 5` as its
solved test (solver_lib.py line 268). -/
theorem get_feedback_all_green_iff (g t : List Nat) (hg : g.length = 5)
    (ht : t.length = 5) :
    get_feedback g t = List.replicate 5 Mark.G ↔ g = t := by
  constructor
  · intro h
    apply List.ext_getElem?
    intro i
    by_cases hi : i < 5
    · have hzl : i < (g.zip t).length := by
        rw [List.length_zip, hg, ht]
        simpa using hi
      have hq : (g.zip t)[i]? = some (g.zip t)[i] := List.getElem?_eq_getElem hzl
      have hG : (get_feedback g t)[i]? = some Mark.G := by
        rw [h, List.getElem?_replicate, if_pos hi]
      have hqq := (get_feedback_G_iff g t i _ hq).mp hG
      have h1 := ((zip_getElem?_eq_some g t _ i).mp hq).1
      have h2 := ((zip_getElem?_eq_some g t _ i).mp hq).2
      rw [h1, h2, hqq]
    · have h1 : g[i]? = none := List.getElem?_eq_none (by omega)
      have h2 : t[i]? = none := List.getElem?_eq_none (by omega)
      rw [h1, h2]
  · intro h
    subst h
    rw [get_feedback_def, pass1_fst, zip_self, List.map_map]
    have hcomp : ((fun p : Nat × Nat => if p.1 = p.2 then Mark.G else Mark.B) ∘
        fun c : Nat => (c, c)) = fun _ : Nat => Mark.G := by
      funext c
      simp
    rw [hcomp, List.map_const', hg, pass2_replicate]

/-- Witness for C10 at a concrete input: the target guessed against itself. -/
theorem get_feedback_all_green_iff_witness :
    (get_feedback trace_w trace_w = List.replicate 5 Mark.G ↔ trace_w = trace_w) :=
  get_feedback_all_green_iff trace_w trace_w (by decide) (by decide)

theorem countP_GY (l : List (Mark × Nat)) (L : Nat) :
    (l.countP fun p => (p.1 == Mark.G || p.1 == Mark.Y) && p.2 == L) =
      l.count (Mark.G, L) + l.count (Mark.Y, L) := by
  induction l with
  | nil => rfl
  | cons p rest ih =>
    obtain ⟨m, a⟩ := p
    rw [List.countP_cons, List.count_cons, List.count_cons, ih]
    by_cases ha : a = L
    · subst ha
      cases m <;> simp <;> omega
    · cases m <;> simp [ha]

theorem count_markmap_G (l : List (Nat × Nat)) (L : Nat) :
    (l.map fun p => (if p.1 = p.2 then Mark.G else Mark.B, p.1)).count (Mark.G, L) =
      l.count (L, L) := by
  induction l with
  | nil => rfl
  | cons p rest ih =>
    obtain ⟨a, b⟩ := p
    rw [List.map_cons, List.count_cons, List.count_cons, ih]
    by_cases hab : a = b
    · subst hab
      by_cases haL : a = L
      · subst haL
        simp
      · simp [haL]
    · have h2 : ¬(((a, b) : Nat × Nat) = (L, L)) := by
        intro hcontra
        injection hcontra with x y
        exact hab (x.trans y.symm)
      simp [hab, h2]

theorem count_markmap_Y (l : List (Nat × Nat)) (L : Nat) :
    (l.map fun p => (if p.1 = p.2 then Mark.G else Mark.B, p.1)).count (Mark.Y, L) = 0 := by
  induction l with
  | nil => rfl
  | cons p rest ih =>
    obtain ⟨a, b⟩ := p
    rw [List.map_cons, List.count_cons, ih]
    by_cases hab : a = b <;> simp [hab]

theorem zip_count_diag_le (g t : List Nat) (L : Nat) :
    (g.zip t).count (L, L) ≤ t.count L := by
  induction g generalizing t with
  | nil => simp
  | cons a g ih =>
    cases t with
    | nil => simp
    | cons b t =>
      rw [List.zip_cons_cons]
      have hrec := ih t
      by_cases hb : b = L
      · by_cases ha : a = L
        · rw [show ((a, b) : Nat × Nat) = (L, L) by rw [ha, hb], hb,
            List.count_cons_self, List.count_cons_self]
          omega
        · have hne1 : ((L, L) : Nat × Nat) ≠ (a, b) := by
            intro hx
            injection hx with h1 h2
            exact ha h1.symm
          rw [List.count_cons_of_ne hne1, hb, List.count_cons_self]
          omega
      · have hne1 : ((L, L) : Nat × Nat) ≠ (a, b) := by
          intro hx
          injection hx with h1 h2
          exact hb h2.symm
        have hne2 : (L : Nat) ≠ b := fun hx => hb hx.symm
        rw [List.count_cons_of_ne hne1, List.count_cons_of_ne hne2]
        omega

/-- C6: for every 5-letter guess and target and every letter `L`, the number
of positions the feedback marks Present or Correct while the guess carries
letter `L` never exceeds the number of occurrences of `L` in the target. -/
theorem feedback_marks_bounded_by_target_count (g t : List Nat) (hg : g.length = 5)
    (ht : t.length = 5) (L : Nat) :
    (((get_feedback g t).zip g).countP
      fun p => (p.1 == Mark.G || p.1 == Mark.Y) && p.2 == L) ≤ t.count L := by
  have hmapfst : (g.zip t).map Prod.fst = g := List.map_fst_zip g t (by rw [hg, ht])
  have key : (((get_feedback g t).zip g).countP
      fun p => (p.1 == Mark.G || p.1 == Mark.Y) && p.2 == L) =
      (((get_feedback g t).zip ((g.zip t).map Prod.fst)).countP
        fun p => (p.1 == Mark.G || p.1 == Mark.Y) && p.2 == L) := by
    rw [hmapfst]
  rw [key, countP_GY, get_feedback_def]
  have hms : (pass1 (g.zip t) fun c => (t.count c : Int)).1.zip ((g.zip t).map Prod.fst) =
      (g.zip t).map fun p => (if p.1 = p.2 then Mark.G else Mark.B, p.1) := by
    rw [pass1_fst, List.zip_map']
  have hG := pass2_count_G t (pass1 (g.zip t) fun c => (t.count c : Int)).1 (g.zip t)
    (pass1 (g.zip t) fun c => (t.count c : Int)).2 L
  rw [hms, count_markmap_G] at hG
  have hY := pass2_count_Y t (pass1 (g.zip t) fun c => (t.count c : Int)).1 (g.zip t)
    (pass1 (g.zip t) fun c => (t.count c : Int)).2 L
  rw [hms, count_markmap_Y] at hY
  have hcnt := pass1_snd (g.zip t) (fun c => (t.count c : Int)) L
  have hle := zip_count_diag_le g t L
  omega

/-- Witness for C6 at a concrete input with duplicate guess letters: guess
"eeeee" against target "trace", letter 'e'. -/
theorem feedback_marks_bounded_by_target_count_witness :
    (((get_feedback [4, 4, 4, 4, 4] trace_w).zip [4, 4, 4, 4, 4]).countP
      fun p => (p.1 == Mark.G || p.1 == Mark.Y) && p.2 == 4) ≤ trace_w.count 4 :=
  feedback_marks_bounded_by_target_count [4, 4, 4, 4, 4] trace_w (by decide) (by decide) 4

theorem solve_loop_zero (sel : CpModelState → Option (List Nat)) (tInt : List Nat)
    (pf : Nat → Nat → ℚ) (lf : Nat → ℚ) (vw : List (List Nat)) (m : CpModelState)
    (al : Bool) (caller : List (List Nat)) (resp : Response) :
    solve_loop sel tInt pf lf 0 vw m al caller resp = (resp, m, caller) := rfl

theorem solve_loop_succ_none (sel : CpModelState → Option (List Nat)) (tInt : List Nat)
    (pf : Nat → Nat → ℚ) (lf : Nat → ℚ) (n : Nat) (vw : List (List Nat))
    (m : CpModelState) (al : Bool) (caller : List (List Nat)) (resp : Response)
    (h : sel (round_model m vw pf lf) = none) :
    solve_loop sel tInt pf lf (n + 1) vw m al caller resp =
      (resp, round_model m vw pf lf, caller) := by
  simp [solve_loop, h]

theorem solve_loop_succ_some_solved (sel : CpModelState → Option (List Nat))
    (tInt : List Nat) (pf : Nat → Nat → ℚ) (lf : Nat → ℚ) (n : Nat)
    (vw : List (List Nat)) (m : CpModelState) (al : Bool) (caller : List (List Nat))
    (resp : Response) (g : List Nat) (hsel : sel (round_model m vw pf lf) = some g)
    (hfb : get_feedback g tInt = List.replicate 5 Mark.G) :
    solve_loop sel tInt pf lf (n + 1) vw m al caller resp =
      ({ guesses := resp.guesses ++ [g.map fun c => c + 97]
         feedback := resp.feedback ++ [get_feedback g tInt]
         nb_possible_words := resp.nb_possible_words ++ [(vw.erase g).length] },
       round_model m vw pf lf, if al then vw.erase g else caller) := by
  simp [solve_loop, hsel, hfb]

theorem solve_loop_succ_some_continue (sel : CpModelState → Option (List Nat))
    (tInt : List Nat) (pf : Nat → Nat → ℚ) (lf : Nat → ℚ) (n : Nat)
    (vw : List (List Nat)) (m : CpModelState) (al : Bool) (caller : List (List Nat))
    (resp : Response) (g : List Nat) (hsel : sel (round_model m vw pf lf) = some g)
    (hfb : get_feedback g tInt ≠ List.replicate 5 Mark.G) :
    solve_loop sel tInt pf lf (n + 1) vw m al caller resp =
      solve_loop sel tInt pf lf n
        (filter_valid_words (vw.erase g) g (get_feedback g tInt))
        { round_model m vw pf lf with
            history := (round_model m vw pf lf).history ++ [(g, get_feedback g tInt)] }
        false (if al then vw.erase g else caller)
        { guesses := resp.guesses ++ [g.map fun c => c + 97]
          feedback := resp.feedback ++ [get_feedback g tInt]
          nb_possible_words := resp.nb_possible_words ++ [(vw.erase g).length] } := by
  have hfb' : get_feedback g tInt ≠ [Mark.G, Mark.G, Mark.G, Mark.G, Mark.G] := by
    simpa using hfb
  simp [solve_loop, hsel, hfb']

theorem loop_guesses_le (sel : CpModelState → Option (List Nat)) (tInt : List Nat)
    (pf : Nat → Nat → ℚ) (lf : Nat → ℚ) :
    ∀ (fuel : Nat) (vw : List (List Nat)) (m : CpModelState) (al : Bool)
      (caller : List (List Nat)) (resp : Response),
      ((solve_loop sel tInt pf lf fuel vw m al caller resp).1.guesses).length ≤
        resp.guesses.length + fuel := by
  intro fuel
  induction fuel with
  | zero =>
    intro vw m al caller resp
    rw [solve_loop_zero]
    exact Nat.le_add_right _ _
  | succ n ih =>
    intro vw m al caller resp
    cases hsel : sel (round_model m vw pf lf) with
    | none =>
      rw [solve_loop_succ_none _ _ _ _ _ _ _ _ _ _ hsel]
      exact Nat.le_add_right _ _
    | some g =>
      by_cases hfb : get_feedback g tInt = List.replicate 5 Mark.G
      · rw [solve_loop_succ_some_solved _ _ _ _ _ _ _ _ _ _ _ hsel hfb]
        simp
      · rw [solve_loop_succ_some_continue _ _ _ _ _ _ _ _ _ _ _ hsel hfb]
        refine le_trans (ih _ _ _ _ _) ?_
        simp only [List.length_append, List.length_singleton]
        omega

/-- C9: `solve_wordle` always terminates (it is a total function of its
inputs) and plays at most `max_attempts` rounds: the returned response holds
at most `max_attempts` guesses, for every solver oracle, word list, target
and attempt budget. -/
theorem solve_wordle_at_most_max_attempts (sel : CpModelState → Option (List Nat))
    (ws : List (List Nat)) (tw : List Nat) (n : Nat) :
    ((solve_wordle sel ws tw n).1.guesses).length ≤ n := by
  have h := loop_guesses_le sel (tw.map fun c => c - 97) (positional_freq ws)
    (letter_frequency ws) n ws ⟨[], [], []⟩ true ws ⟨[], [], []⟩
  simpa [solve_wordle] using h

/-- C8: when the candidate set is empty or the CP solver reports no feasible
word (`sel` returns `none`, the status branch of solver_lib.py lines
276-279), the loop returns — it does not raise — and the response is exactly
the partial history accumulated so far: entries of that round and later are
absent and earlier entries are unchanged.  The empty-candidate case follows
because a solver solution must belong to every `AddAllowedAssignments` list,
including the empty one. -/
theorem infeasible_returns_partial_history (sel : CpModelState → Option (List Nat))
    (hallow : ∀ m g, sel m = some g → ∀ ws ∈ m.allowed, g ∈ ws)
    (tInt : List Nat) (pf : Nat → Nat → ℚ) (lf : Nat → ℚ) (n : Nat)
    (vw : List (List Nat)) (m : CpModelState) (al : Bool) (caller : List (List Nat))
    (resp : Response)
    (h : vw = [] ∨ sel (round_model m vw pf lf) = none) :
    solve_loop sel tInt pf lf (n + 1) vw m al caller resp =
      (resp, round_model m vw pf lf, caller) := by
  have hnone : sel (round_model m vw pf lf) = none := by
    rcases h with h | h
    · cases hsel : sel (round_model m vw pf lf) with
      | none => rfl
      | some g =>
        have hmem : vw ∈ (round_model m vw pf lf).allowed := by
          rw [round_model]
          simp
        have hg := hallow _ g hsel vw hmem
        rw [h] at hg
        simp at hg
    · exact h
  exact solve_loop_succ_none sel tInt pf lf n vw m al caller resp hnone

/-- Witness for C8: a solver oracle that always reports infeasible returns
the accumulated (empty) history unchanged on a concrete state. -/
theorem infeasible_returns_partial_history_witness :
    solve_loop (fun _ => none) [] (fun _ _ => 0) (fun _ => 0) 1 []
        ⟨[], [], []⟩ true [] ⟨[], [], []⟩ =
      (⟨[], [], []⟩, round_model ⟨[], [], []⟩ [] (fun _ _ => 0) (fun _ => 0), []) :=
  infeasible_returns_partial_history (fun _ => none)
    (by intro m g h; simp at h) [] (fun _ _ => 0) (fun _ => 0) 0 []
    ⟨[], [], []⟩ true [] ⟨[], [], []⟩ (Or.inr rfl)

theorem loop_nb_extends (sel : CpModelState → Option (List Nat)) (tInt : List Nat)
    (pf : Nat → Nat → ℚ) (lf : Nat → ℚ) :
    ∀ (fuel : Nat) (vw : List (List Nat)) (m : CpModelState) (al : Bool)
      (caller : List (List Nat)) (resp : Response),
      ∃ tail, (solve_loop sel tInt pf lf fuel vw m al caller resp).1.nb_possible_words =
        resp.nb_possible_words ++ tail := by
  intro fuel
  induction fuel with
  | zero =>
    intro vw m al caller resp
    exact ⟨[], by rw [solve_loop_zero]; simp⟩
  | succ n ih =>
    intro vw m al caller resp
    cases hsel : sel (round_model m vw pf lf) with
    | none =>
      exact ⟨[], by rw [solve_loop_succ_none _ _ _ _ _ _ _ _ _ _ hsel]; simp⟩
    | some g =>
      by_cases hfb : get_feedback g tInt = List.replicate 5 Mark.G
      · exact ⟨[(vw.erase g).length], by
          rw [solve_loop_succ_some_solved _ _ _ _ _ _ _ _ _ _ _ hsel hfb]⟩
      · obtain ⟨tail, htail⟩ := ih
          (filter_valid_words (vw.erase g) g (get_feedback g tInt))
          { round_model m vw pf lf with
              history := (round_model m vw pf lf).history ++ [(g, get_feedback g tInt)] }
          false (if al then vw.erase g else caller)
          { guesses := resp.guesses ++ [g.map fun c => c + 97]
            feedback := resp.feedback ++ [get_feedback g tInt]
            nb_possible_words := resp.nb_possible_words ++ [(vw.erase g).length] }
        refine ⟨(vw.erase g).length :: tail, ?_⟩
        rw [solve_loop_succ_some_continue _ _ _ _ _ _ _ _ _ _ _ hsel hfb, htail]
        simp

/-- C3 amended: in every round that produces a guess, the
`nb_possible_words` entry recorded for that round equals the size of the
candidate set after the guess has been removed (`valid_words.remove(guess)`,
line 257) and before `filter_valid_words` runs (line 274). -/
theorem nb_entry_is_post_removal_count (sel : CpModelState → Option (List Nat))
    (tInt : List Nat) (pf : Nat → Nat → ℚ) (lf : Nat → ℚ) (n : Nat)
    (vw : List (List Nat)) (m : CpModelState) (al : Bool) (caller : List (List Nat))
    (resp : Response) (g : List Nat)
    (hsel : sel (round_model m vw pf lf) = some g) :
    ((solve_loop sel tInt pf lf (n + 1) vw m al caller resp).1.nb_possible_words).get?
      resp.nb_possible_words.length = some (vw.erase g).length := by
  by_cases hfb : get_feedback g tInt = List.replicate 5 Mark.G
  · rw [solve_loop_succ_some_solved _ _ _ _ _ _ _ _ _ _ _ hsel hfb]
    exact List.get?_concat_length _ _
  · rw [solve_loop_succ_some_continue _ _ _ _ _ _ _ _ _ _ _ hsel hfb]
    obtain ⟨tail, htail⟩ := loop_nb_extends sel tInt pf lf n
      (filter_valid_words (vw.erase g) g (get_feedback g tInt))
      { round_model m vw pf lf with
          history := (round_model m vw pf lf).history ++ [(g, get_feedback g tInt)] }
      false (if al then vw.erase g else caller)
      { guesses := resp.guesses ++ [g.map fun c => c + 97]
        feedback := resp.feedback ++ [get_feedback g tInt]
        nb_possible_words := resp.nb_possible_words ++ [(vw.erase g).length] }
    rw [htail]
    show ((resp.nb_possible_words ++ [(vw.erase g).length]) ++ tail).get?
      resp.nb_possible_words.length = some (vw.erase g).length
    rw [List.append_assoc, List.get?_append_right (Nat.le_refl _), Nat.sub_self]
    rfl

/-- Witness for the amended C3 on a concrete first round: with the demo
dictionary and target "trace", the solver picks "crane", and the recorded
entry is 3 — the count after removal (4 - 1), not the post-filter count. -/
theorem nb_entry_is_post_removal_count_witness :
    ((solve_loop greedy_sel (trace_str.map fun c => c - 97) (positional_freq demo_words)
        (letter_frequency demo_words) 6 demo_words ⟨[], [], []⟩ true demo_words
        ⟨[], [], []⟩).1.nb_possible_words).get? 0 = some 3 := by
  have h := nb_entry_is_post_removal_count greedy_sel (trace_str.map fun c => c - 97)
    (positional_freq demo_words) (letter_frequency demo_words) 5 demo_words
    ⟨[], [], []⟩ true demo_words ⟨[], [], []⟩ crane_w (by decide)
  rw [show (demo_words.erase crane_w).length = 3 from by decide] at h
  exact h

theorem loop_heuristics_replicate (sel : CpModelState → Option (List Nat))
    (tInt : List Nat) (pf : Nat → Nat → ℚ) (lf : Nat → ℚ) :
    ∀ (fuel : Nat) (vw : List (List Nat)) (m : CpModelState) (al : Bool)
      (caller : List (List Nat)) (resp : Response),
      ∃ k, (solve_loop sel tInt pf lf fuel vw m al caller resp).2.1.heuristics =
        m.heuristics ++ List.replicate k (pf, lf) := by
  intro fuel
  induction fuel with
  | zero =>
    intro vw m al caller resp
    exact ⟨0, by rw [solve_loop_zero]; simp⟩
  | succ n ih =>
    intro vw m al caller resp
    cases hsel : sel (round_model m vw pf lf) with
    | none =>
      refine ⟨1, ?_⟩
      rw [solve_loop_succ_none _ _ _ _ _ _ _ _ _ _ hsel]
      simp [round_model]
    | some g =>
      by_cases hfb : get_feedback g tInt = List.replicate 5 Mark.G
      · refine ⟨1, ?_⟩
        rw [solve_loop_succ_some_solved _ _ _ _ _ _ _ _ _ _ _ hsel hfb]
        simp [round_model]
      · obtain ⟨k, hk⟩ := ih
          (filter_valid_words (vw.erase g) g (get_feedback g tInt))
          { round_model m vw pf lf with
              history := (round_model m vw pf lf).history ++ [(g, get_feedback g tInt)] }
          false (if al then vw.erase g else caller)
          { guesses := resp.guesses ++ [g.map fun c => c + 97]
            feedback := resp.feedback ++ [get_feedback g tInt]
            nb_possible_words := resp.nb_possible_words ++ [(vw.erase g).length] }
        refine ⟨k + 1, ?_⟩
        rw [solve_loop_succ_some_continue _ _ _ _ _ _ _ _ _ _ _ hsel hfb, hk]
        simp [round_model, List.replicate_succ]

/-- C2 amended: the frequency statistics passed to the heuristic are
computed once from the initial word list, before the first round, and that
same pair of tables is what every round's `update_heuristic` call receives:
the recorded heuristic inputs are all equal to
`(positional_freq ws, letter_frequency ws)` of the original list. -/
theorem heuristics_computed_once (sel : CpModelState → Option (List Nat))
    (ws : List (List Nat)) (tw : List Nat) (n : Nat) :
    (solve_wordle sel ws tw n).2.1.heuristics =
      List.replicate (solve_wordle sel ws tw n).2.1.heuristics.length
        (positional_freq ws, letter_frequency ws) := by
  obtain ⟨k, hk⟩ := loop_heuristics_replicate sel (tw.map fun c => c - 97)
    (positional_freq ws) (letter_frequency ws) n ws ⟨[], [], []⟩ true ws ⟨[], [], []⟩
  have hswl : solve_wordle sel ws tw n =
      solve_loop sel (tw.map fun c => c - 97) (positional_freq ws) (letter_frequency ws)
        n ws ⟨[], [], []⟩ true ws ⟨[], [], []⟩ := rfl
  rw [hswl, hk]
  simp

/-- C2 counterexample: in a concrete run (demo dictionary, target "trace",
the greedy feasible-word oracle), the letter-frequency table the heuristic
uses in round 1 — recorded in `heuristics[1]` — is the table of the original
4-word dictionary, not of the round-1 candidate set recorded in `allowed[1]`
(which is `[trace]`): at letter 'c' (index 2) the used table gives 1/2 while
the current candidate set gives 1.  So the statistics are not recomputed
each round from the current candidate set. -/
theorem heuristics_not_recomputed_counterexample :
    ((solve_wordle greedy_sel demo_words trace_str 6).2.1.heuristics.getD 1
        (fun _ _ => 0, fun _ => 0)).2 2 ≠
      letter_frequency
        ((solve_wordle greedy_sel demo_words trace_str 6).2.1.allowed.getD 1 []) 2 := by
  have h1 : (solve_wordle greedy_sel demo_words trace_str 6).2.1.heuristics.getD 1
      (fun _ _ => 0, fun _ => 0) =
      (positional_freq demo_words, letter_frequency demo_words) := rfl
  have h2 : (solve_wordle greedy_sel demo_words trace_str 6).2.1.allowed.getD 1 [] =
      [trace_w] := by decide
  rw [h1, h2]
  show letter_frequency demo_words 2 ≠ letter_frequency [trace_w] 2
  rw [letter_frequency, letter_frequency]
  rw [show demo_words.flatten.count 2 = 2 from by decide,
    show demo_words.length = 4 from by decide,
    show ([trace_w] : List (List Nat)).flatten.count 2 = 1 from by decide,
    show ([trace_w] : List (List Nat)).length = 1 from by decide]
  norm_num

/-- C4 is violated by the code: `valid_words.remove(guess)` (solver_lib.py
line 257) runs while the local `valid_words` still aliases the caller's list
object, so the caller's list loses the first guess.  Concretely, after
solving the demo dictionary against "trace", the caller's list is
`[slate, irate, trace]` — "crane" is gone — rather than the original
4-word dictionary shared by api.py across requests. -/
theorem solve_wordle_mutates_callers_list :
    (solve_wordle greedy_sel demo_words trace_str 6).2.2 = [slate_w, irate_w, trace_w] ∧
    (solve_wordle greedy_sel demo_words trace_str 6).2.2 ≠ demo_words :=
  ⟨by decide, by decide⟩

theorem model_allows_self_false (g : List Nat) (fb : List Mark)
    (hfb : fb.length = 5) (hne : fb ≠ List.replicate 5 Mark.G) :
    model_allows g fb g = false := by
  have hex : ∃ i, i < 5 ∧ fb.getD i Mark.B ≠ Mark.G := by
    by_contra hall
    push_neg at hall
    apply hne
    apply List.ext_getElem?
    intro i
    by_cases hi : i < 5
    · have h1 : fb[i]? = some (fb.getD i Mark.B) :=
        getElem?_eq_some_getD fb i Mark.B (by omega)
      rw [h1, List.getElem?_replicate, if_pos hi, hall i hi]
    · rw [List.getElem?_eq_none (by omega),
        List.getElem?_eq_none (by rw [List.length_replicate]; omega)]
  obtain ⟨i, hi5, hiG⟩ := hex
  rw [model_allows]
  cases hmark : fb.getD i Mark.B with
  | G => exact absurd hmark hiG
  | Y =>
    have hblock : ((List.range 5).all fun pos =>
        match fb.getD pos Mark.B with
        | Mark.G => g.getD pos 0 == g.getD pos 0
        | Mark.Y => !(g.getD pos 0 == g.getD pos 0)
        | Mark.B => true) = false := by
      rw [List.all_eq_false]
      refine ⟨i, List.mem_range.mpr hi5, ?_⟩
      rw [hmark]
      simp
    rw [hblock, Bool.false_and, Bool.false_and]
  | B =>
    have hblock : ((List.range 5).all fun pos =>
        if fb.getD pos Mark.B = Mark.B then !(g.getD pos 0 == g.getD pos 0)
        else true) = false := by
      rw [List.all_eq_false]
      refine ⟨i, List.mem_range.mpr hi5, ?_⟩
      rw [hmark]
      simp
    rw [hblock, Bool.and_false, Bool.false_and]

theorem loop_guesses_nodup (sel : CpModelState → Option (List Nat))
    (hlen5 : ∀ m g, sel m = some g → g.length = 5)
    (hhist : ∀ m g, sel m = some g → ∀ e ∈ m.history, model_allows e.1 e.2 g = true)
    (tInt : List Nat) (htInt : tInt.length = 5) (pf : Nat → Nat → ℚ) (lf : Nat → ℚ) :
    ∀ (fuel : Nat) (vw : List (List Nat)) (m : CpModelState) (al : Bool)
      (caller : List (List Nat)) (resp : Response),
      resp.guesses.Nodup →
      (∀ s ∈ resp.guesses, ∃ e ∈ m.history, ∃ w, s = w.map (fun c => c + 97) ∧
        model_allows e.1 e.2 w = false) →
      ((solve_loop sel tInt pf lf fuel vw m al caller resp).1.guesses).Nodup := by
  intro fuel
  induction fuel with
  | zero =>
    intro vw m al caller resp h1 h2
    rw [solve_loop_zero]
    exact h1
  | succ n ih =>
    intro vw m al caller resp h1 h2
    cases hsel : sel (round_model m vw pf lf) with
    | none =>
      rw [solve_loop_succ_none _ _ _ _ _ _ _ _ _ _ hsel]
      exact h1
    | some g =>
      have hg5 := hlen5 _ g hsel
      have hsat := hhist _ g hsel
      have hnotmem : g.map (fun c => c + 97) ∉ resp.guesses := by
        intro hmem
        obtain ⟨e, hemem, w, hw, hwf⟩ := h2 _ hmem
        have hwg : w = g := by
          have hmaps : w.map (fun c => c + 97) = g.map (fun c => c + 97) := hw.symm
          have hinj : Function.Injective (fun c : Nat => c + 97) := fun a b hab => by
            simpa using hab
          exact List.map_injective_iff.mpr hinj hmaps
        have htrue : model_allows e.1 e.2 g = true := by
          refine hsat e ?_
          rw [round_model]
          exact hemem
        rw [hwg] at hwf
        simp [htrue] at hwf
      have hnodup2 : (resp.guesses ++ [g.map fun c => c + 97]).Nodup := by
        rw [List.nodup_append]
        refine ⟨h1, List.nodup_singleton _, ?_⟩
        intro a ha hb
        rw [List.mem_singleton] at hb
        subst hb
        exact hnotmem ha
      by_cases hfb : get_feedback g tInt = List.replicate 5 Mark.G
      · rw [solve_loop_succ_some_solved _ _ _ _ _ _ _ _ _ _ _ hsel hfb]
        exact hnodup2
      · rw [solve_loop_succ_some_continue _ _ _ _ _ _ _ _ _ _ _ hsel hfb]
        apply ih
        · exact hnodup2
        · intro s hs
          have hs' : s ∈ resp.guesses ∨ s = g.map (fun c => c + 97) := by
            have : s ∈ resp.guesses ++ [g.map fun c => c + 97] := hs
            rw [List.mem_append, List.mem_singleton] at this
            exact this
          rcases hs' with hs' | hs'
          · obtain ⟨e, he, w, hw, hwf⟩ := h2 s hs'
            refine ⟨e, ?_, w, hw, hwf⟩
            show e ∈ (round_model m vw pf lf).history ++ [(g, get_feedback g tInt)]
            rw [List.mem_append]
            exact Or.inl (by rw [round_model]; exact he)
          · refine ⟨(g, get_feedback g tInt), ?_, g, hs', ?_⟩
            · show (g, get_feedback g tInt) ∈
                (round_model m vw pf lf).history ++ [(g, get_feedback g tInt)]
              rw [List.mem_append, List.mem_singleton]
              exact Or.inr rfl
            · exact model_allows_self_false g (get_feedback g tInt)
                (length_get_feedback g tInt hg5 htInt) hfb

/-- C7: within a single run of `solve_wordle` no word is guessed twice — the
returned guess list has no duplicates — for every solver oracle satisfying
the CP-SAT guarantees that a returned solution has 5 position values and
satisfies every constraint `update_model` added in earlier rounds.  (A word,
once guessed, always violates its own feedback constraints: any 'Y' or 'B'
mark excludes the guessed letter at that very position.) -/
theorem solve_wordle_guesses_nodup (sel : CpModelState → Option (List Nat))
    (hlen5 : ∀ m g, sel m = some g → g.length = 5)
    (hhist : ∀ m g, sel m = some g → ∀ e ∈ m.history, model_allows e.1 e.2 g = true)
    (ws : List (List Nat)) (tw : List Nat) (htw : tw.length = 5) (n : Nat) :
    ((solve_wordle sel ws tw n).1.guesses).Nodup := by
  have htInt : (tw.map fun c => c - 97).length = 5 := by rw [List.length_map, htw]
  exact loop_guesses_nodup sel hlen5 hhist _ htInt _ _ n ws ⟨[], [], []⟩ true ws
    ⟨[], [], []⟩ List.nodup_nil (by intro s hs; simp at hs)

theorem greedy_sel_length (m : CpModelState) (g : List Nat)
    (h : greedy_sel m = some g) : g.length = 5 := by
  have hp := List.find?_some h
  simp only [Bool.and_eq_true, beq_iff_eq] at hp
  exact hp.1.1

theorem greedy_sel_history (m : CpModelState) (g : List Nat)
    (h : greedy_sel m = some g) :
    ∀ e ∈ m.history, model_allows e.1 e.2 g = true := by
  have hp := List.find?_some h
  simp only [Bool.and_eq_true, beq_iff_eq, List.all_eq_true] at hp
  exact hp.2

theorem greedy_sel_allowed (m : CpModelState) (g : List Nat)
    (h : greedy_sel m = some g) : ∀ ws ∈ m.allowed, g ∈ ws := by
  have hp := List.find?_some h
  simp only [Bool.and_eq_true, beq_iff_eq, List.all_eq_true] at hp
  intro ws hws
  have hc := hp.1.2 ws hws
  exact List.elem_iff.mp hc

/-- Witness for C7: a concrete full run with the greedy feasible-word oracle
(which provably satisfies the CP-SAT guarantees) on the demo dictionary. -/
theorem solve_wordle_guesses_nodup_witness :
    ((solve_wordle greedy_sel demo_words trace_str 6).1.guesses).Nodup :=
  solve_wordle_guesses_nodup greedy_sel greedy_sel_length greedy_sel_history
    demo_words trace_str (by decide) 6

/-- C3 counterexample: in the concrete demo run, round 0 guesses "crane"
(feedback Y G G B G), records `nb_possible_words[0] = 3` — the count after
removal — while the candidate set after `filter_valid_words` has size 1
(only "trace" survives).  So the recorded entry is not the post-filter
size the claim describes. -/
theorem nb_entry_not_post_filter_counterexample :
    (solve_wordle greedy_sel demo_words trace_str 6).1.guesses.getD 0 [] =
        crane_w.map (fun c => c + 97) ∧
    (solve_wordle greedy_sel demo_words trace_str 6).1.feedback.getD 0 [] =
        [Mark.Y, Mark.G, Mark.G, Mark.B, Mark.G] ∧
    (solve_wordle greedy_sel demo_words trace_str 6).1.nb_possible_words.getD 0 0 = 3 ∧
    (filter_valid_words (demo_words.erase crane_w) crane_w
        [Mark.Y, Mark.G, Mark.G, Mark.B, Mark.G]).length = 1 ∧
    (solve_wordle greedy_sel demo_words trace_str 6).1.nb_possible_words.getD 0 0 ≠
      (filter_valid_words (demo_words.erase crane_w) crane_w
        [Mark.Y, Mark.G, Mark.G, Mark.B, Mark.G]).length := by
  refine ⟨by decide, by decide, by decide, by decide, by decide⟩

